import Mathlib

/-!
# TradeAssist — verification of the core specification

A shallow embedding of the core components of the TradeAssist trading
system (corporate-action adjustment engine, position tracker, rate
limiter, order placement, position-check path, retry/backoff and
data-freshness policies), with theorems settling the spec's claims.

Conventions of the embedding:
* Python `Decimal`/`float` arithmetic is modelled by exact rationals (ℚ);
  rounding-tolerance clauses in the spec are therefore satisfied exactly.
* `datetime` values are modelled by integers (e.g. `20200831` for
  2020-08-31); for dates in this fixed `YYYYMMDD` shape the integer order
  coincides with chronological order, and only the order is ever used.
* Python exceptions are modelled by `Except String`; a function that can
  raise returns `.error msg`.
* Python truthiness of optional values is modelled explicitly
  (`None`/`0`/empty string are falsy).
-/

/-! ## Corporate actions (`corporate_actions.py`) -/

/-- The `CorporateActionType` enum of `corporate_actions.py`. -/
inductive CorporateActionType where
  | stockSplit
  | reverseSplit
  | cashDividend
  | stockDividend
  | spinOff
  | merger
  | rightsIssue
  | specialDividend
deriving DecidableEq, Repr

/-- The fields of the `CorporateAction` dataclass that take part in the
adjustment computations.  `exDate` is an integer-coded date; `splitTo` and
`splitFrom` are the parsed components of the split ratio (`None` when
parsing failed or the action is not a split); `dividendAmount` is the
per-share cash amount for dividend actions. -/
structure CorporateAction where
  symbol : String
  actionType : CorporateActionType
  exDate : ℤ
  splitTo : Option ℤ := none
  splitFrom : Option ℤ := none
  dividendAmount : Option ℚ := none
  splitRatioStr : Option String := none
deriving DecidableEq, Repr

/-- Python truthiness of an optional integer: `None` and `0` are falsy. -/
def truthyInt : Option ℤ → Bool
  | none => false
  | some n => decide (n ≠ 0)

/-- Python truthiness of an optional rational (`Decimal`): `None` and `0`
are falsy. -/
def truthyRat : Option ℚ → Bool
  | none => false
  | some q => decide (q ≠ 0)

/-- `CorporateAction.get_split_multiplier`: returns `split_to / split_from`
when both components are set and nonzero (Python truthiness), else `1.0`. -/
def get_split_multiplier (a : CorporateAction) : ℚ :=
  if truthyInt a.splitFrom && truthyInt a.splitTo then
    (a.splitTo.getD 0 : ℚ) / (a.splitFrom.getD 0 : ℚ)
  else 1

/-- `CorporateAction.get_price_adjustment_factor`: the inverse of the split
multiplier (`1.0` when the multiplier is zero). -/
def get_price_adjustment_factor (a : CorporateAction) : ℚ :=
  let m := get_split_multiplier a
  if m ≠ 0 then 1 / m else 1

/-- `CorporateAction.is_effective_on_date`: an action is effective on
`d` iff `d ≥ ex_date` (the `ex_date` field of a constructed action is
always truthy). -/
def is_effective_on_date (a : CorporateAction) (d : ℤ) : Bool :=
  decide (a.exDate ≤ d)

/-- The numeric fields of a `PositionAdjustment` record produced by
`calculate_stock_split_adjustment` / `calculate_dividend_adjustment`. -/
structure PositionAdjustment where
  originalQuantity : ℚ
  originalCostBasis : ℚ
  originalTotalCost : ℚ
  adjustedQuantity : ℚ
  adjustedCostBasis : ℚ
  adjustedTotalCost : ℚ
  cashAdjustment : ℚ := 0
deriving DecidableEq, Repr

/-- `CorporateActionManager.calculate_stock_split_adjustment`: multiply the
quantity by the split multiplier, multiply the cost basis by the price
adjustment factor, and record before/after totals. -/
def calculate_stock_split_adjustment (a : CorporateAction)
    (currentQuantity currentCostBasis : ℚ) : PositionAdjustment :=
  let multiplier := get_split_multiplier a
  let priceFactor := get_price_adjustment_factor a
  let newQuantity := currentQuantity * multiplier
  let newCostBasis := currentCostBasis * priceFactor
  { originalQuantity := currentQuantity
    originalCostBasis := currentCostBasis
    originalTotalCost := currentQuantity * currentCostBasis
    adjustedQuantity := newQuantity
    adjustedCostBasis := newCostBasis
    adjustedTotalCost := newQuantity * newCostBasis }

/-- `CorporateActionManager.calculate_dividend_adjustment`: raises when the
dividend amount is falsy (`None` or `0`); otherwise the cash adjustment is
`current_quantity * dividend_amount` and quantity/cost-basis fields record
no change (the source stores `0` for the cost fields). -/
def calculate_dividend_adjustment (a : CorporateAction)
    (currentQuantity : ℚ) : Except String PositionAdjustment :=
  if truthyRat a.dividendAmount then
    .ok { originalQuantity := currentQuantity
          originalCostBasis := 0
          originalTotalCost := 0
          adjustedQuantity := currentQuantity
          adjustedCostBasis := 0
          adjustedTotalCost := 0
          cashAdjustment := currentQuantity * a.dividendAmount.getD 0 }
  else .error "Dividend amount required for dividend adjustment"

/-- Insert an action into a list sorted by ascending `ex_date`, after any
action with the same `ex_date` (matching the stability of Python's
`sorted`). -/
def insert_by_ex_date (a : CorporateAction) :
    List CorporateAction → List CorporateAction
  | [] => [a]
  | b :: bs =>
    if b.exDate ≤ a.exDate then b :: insert_by_ex_date a bs
    else a :: b :: bs

/-- Stable sort by ascending `ex_date` (Python's `sorted(key=ex_date)`). -/
def sort_by_ex_date (l : List CorporateAction) : List CorporateAction :=
  l.foldl (fun acc a => insert_by_ex_date a acc) []

/-- The result dictionary of
`CorporateActionManager.apply_corporate_actions_to_position`. -/
structure AdjustedPosition where
  originalQuantity : ℚ
  originalCostBasis : ℚ
  adjustedQuantity : ℚ
  adjustedCostBasis : ℚ
  totalDividendsReceived : ℚ
  adjustments : List PositionAdjustment
  actionsApplied : ℕ
deriving DecidableEq, Repr

/-- Membership test `action_type in [STOCK_SPLIT, REVERSE_SPLIT]`. -/
def is_split_type : CorporateActionType → Bool
  | .stockSplit => true
  | .reverseSplit => true
  | _ => false

/-- Membership test `action_type in [CASH_DIVIDEND, SPECIAL_DIVIDEND]`. -/
def is_cash_dividend_type : CorporateActionType → Bool
  | .cashDividend => true
  | .specialDividend => true
  | _ => false

/-- The chronological fold of
`apply_corporate_actions_to_position`: splits and reverse splits rescale
the working quantity and cost basis; cash and special dividends accumulate
`working_quantity * dividend_amount`; all other action types are skipped. -/
def apply_actions_fold :
    List CorporateAction → ℚ → ℚ → ℚ → List PositionAdjustment →
    Except String (ℚ × ℚ × ℚ × List PositionAdjustment)
  | [], q, cb, div, adjs => .ok (q, cb, div, adjs)
  | a :: rest, q, cb, div, adjs =>
    if is_split_type a.actionType then
      let adj := calculate_stock_split_adjustment a q cb
      apply_actions_fold rest adj.adjustedQuantity adj.adjustedCostBasis div
        (adjs ++ [adj])
    else if is_cash_dividend_type a.actionType then
      match calculate_dividend_adjustment a q with
      | .error e => .error e
      | .ok adj => apply_actions_fold rest q cb (div + adj.cashAdjustment)
          (adjs ++ [adj])
    else apply_actions_fold rest q cb div adjs

/-- `CorporateActionManager.apply_corporate_actions_to_position`: select the
actions with `ex_date ≥ acquisition_date` that are effective on
`as_of_date`, sort ascending by `ex_date`, and fold.  (The source's early
return for an empty selection produces exactly the fold's result on `[]`,
so it needs no separate branch.)  The symbol's action list is passed in
directly, standing for `get_actions_for_symbol(symbol)`. -/
def apply_corporate_actions_to_position (actions : List CorporateAction)
    (acquisitionDate : ℤ) (currentQuantity currentCostBasis : ℚ)
    (asOfDate : ℤ) : Except String AdjustedPosition :=
  let relevant := actions.filter fun a =>
    decide (acquisitionDate ≤ a.exDate) && is_effective_on_date a asOfDate
  match apply_actions_fold (sort_by_ex_date relevant)
      currentQuantity currentCostBasis 0 [] with
  | .error e => .error e
  | .ok (q, cb, div, adjs) =>
    .ok { originalQuantity := currentQuantity
          originalCostBasis := currentCostBasis
          adjustedQuantity := q
          adjustedCostBasis := cb
          totalDividendsReceived := div
          adjustments := adjs
          actionsApplied := adjs.length }

/-- The P&L breakdown returned by `CorporateActionManager.get_adjusted_pnl`. -/
structure PnlBreakdown where
  originalTotalCost : ℚ
  adjustedTotalCost : ℚ
  currentMarketValue : ℚ
  capitalPnl : ℚ
  dividendsReceived : ℚ
  totalPnl : ℚ
  totalReturnPct : ℚ
  capitalReturnPct : ℚ
  dividendYieldPct : ℚ
  positionSummary : AdjustedPosition
deriving DecidableEq, Repr

/-- `CorporateActionManager.get_adjusted_pnl`: apply the corporate actions
to the acquisition-time position, then derive the P&L components. -/
def get_adjusted_pnl (actions : List CorporateAction) (acquisitionDate : ℤ)
    (acquisitionQuantity acquisitionCostPerShare currentMarketPrice : ℚ)
    (asOfDate : ℤ) : Except String PnlBreakdown :=
  match apply_corporate_actions_to_position actions acquisitionDate
      acquisitionQuantity acquisitionCostPerShare asOfDate with
  | .error e => .error e
  | .ok pos =>
    let originalTotalCost := acquisitionQuantity * acquisitionCostPerShare
    let adjustedTotalCost := pos.adjustedQuantity * pos.adjustedCostBasis
    let currentMarketValue := pos.adjustedQuantity * currentMarketPrice
    let capitalPnl := currentMarketValue - adjustedTotalCost
    let totalPnl := capitalPnl + pos.totalDividendsReceived
    .ok { originalTotalCost := originalTotalCost
          adjustedTotalCost := adjustedTotalCost
          currentMarketValue := currentMarketValue
          capitalPnl := capitalPnl
          dividendsReceived := pos.totalDividendsReceived
          totalPnl := totalPnl
          totalReturnPct :=
            if 0 < originalTotalCost then totalPnl / originalTotalCost * 100
            else 0
          capitalReturnPct :=
            if 0 < adjustedTotalCost then capitalPnl / adjustedTotalCost * 100
            else 0
          dividendYieldPct :=
            if 0 < originalTotalCost then
              pos.totalDividendsReceived / originalTotalCost * 100
            else 0
          positionSummary := pos }

/-- Python's `str.split(sep)` for a one-character separator, on strings
modelled as character lists (e.g. `"4:1".split(":") == ["4", "1"]`). -/
def split_on_char (c : Char) : List Char → List (List Char)
  | [] => [[]]
  | x :: xs =>
    if x = c then [] :: split_on_char c xs
    else
      match split_on_char c xs with
      | [] => [[x]]
      | h :: t => (x :: h) :: t

/-- Digits accumulated left to right; `none` on any non-digit character. -/
def parse_nat_digits : List Char → ℕ → Option ℕ
  | [], acc => some acc
  | c :: cs, acc =>
    if '0' ≤ c ∧ c ≤ '9' then
      parse_nat_digits cs (acc * 10 + (c.toNat - '0'.toNat))
    else none

/-- Python's `int()` on a string modelled as a character list: an optional
sign followed by at least one digit.  (Python additionally strips
whitespace and allows digit-group underscores; none of the ratio strings
at issue use either.) -/
def parse_int : List Char → Option ℤ
  | [] => none
  | '-' :: rest =>
    if rest = [] then none
    else (parse_nat_digits rest 0).map fun n => -(n : ℤ)
  | '+' :: rest =>
    if rest = [] then none
    else (parse_nat_digits rest 0).map fun n => (n : ℤ)
  | l => (parse_nat_digits l 0).map fun n => (n : ℤ)

/-- `CorporateAction._parse_split_ratio`: split the ratio string on `":"`
(or, failing that, `"/"`) and parse both parts as integers; any other
shape parses to nothing.  Mirrors the source's assignment order: if the
first part fails to parse neither field is set; if only the second fails,
`split_to` keeps its parsed value. -/
def parse_split_ratio (s : List Char) : Option ℤ × Option ℤ :=
  if s.contains ':' then
    let parts := split_on_char ':' s
    if parts.length = 2 then
      match parse_int (parts.getD 0 []) with
      | none => (none, none)
      | some a => (some a, parse_int (parts.getD 1 []))
    else (none, none)
  else if s.contains '/' then
    let parts := split_on_char '/' s
    if parts.length = 2 then
      match parse_int (parts.getD 0 []) with
      | none => (none, none)
      | some a => (some a, parse_int (parts.getD 1 []))
    else (none, none)
  else (none, none)

/-- Constructing a split-type `CorporateAction` with only a ratio string:
`__post_init__` parses the ratio into `split_to`/`split_from` (parsing of
an empty ratio string is skipped by truthiness, and also yields `none`). -/
def mk_split_action (symbol : String) (actionType : CorporateActionType)
    (exDate : ℤ) (ratioStr : List Char) : CorporateAction :=
  { symbol := symbol
    actionType := actionType
    exDate := exDate
    splitTo := (parse_split_ratio ratioStr).1
    splitFrom := (parse_split_ratio ratioStr).2
    splitRatioStr := some (String.mk ratioStr) }

/-- The AAPL 4:1 split of `create_sample_data` (ex-date 2020-08-31), with
the `split_to`/`split_from` fields as `__post_init__` leaves them after
parsing `"4:1"` (see `ratio_four_one_parses`). -/
def aapl_split : CorporateAction :=
  { symbol := "AAPL", actionType := .stockSplit, exDate := 20200831,
    splitTo := some 4, splitFrom := some 1, splitRatioStr := some "4:1" }

/-- The AAPL $0.24 cash dividend of `create_sample_data`
(ex-date 2023-11-10). -/
def aapl_dividend : CorporateAction :=
  { symbol := "AAPL"
    actionType := .cashDividend
    exDate := 20231110
    dividendAmount := some (24 / 100) }

/-- The adjusted P&L of the demo scenario: 100 AAPL shares acquired at
$400 on 2020-01-15, evaluated at price $180 as of 2024-01-01 with the
sample split and dividend on file. -/
def aapl_pnl_2024 : Option PnlBreakdown :=
  (get_adjusted_pnl [aapl_split, aapl_dividend] 20200115 100 400 180
    20240101).toOption

/-! ## Rate limiter (`alpaca_trading_client.py`, `RateLimitTracker`) -/

/-- `RateLimitTracker.check_rate_limit`, on an explicit state: prune the
recorded timestamps to those with `now - t < time_window`, then return the
pruned list together with `(True, 0)` if fewer than `max_requests` remain,
else `(False, int(time_window - (now - oldest)) + 1)` — Python's `int()`
truncates, and the truncated value is nonnegative here, so it is the
floor.  (When the pruned list is empty and `max_requests = 0`, Python's
`min([])` raises; that branch is unreachable for any positive capacity and
the model returns a junk oldest value of `0` there.) -/
def check_rate_limit (window capacity : ℕ) (requests : List ℚ) (now : ℚ) :
    List ℚ × Bool × ℤ :=
  let pruned := requests.filter fun t => decide (now - t < (window : ℚ))
  if pruned.length < capacity then (pruned, true, 0)
  else
    let oldest := pruned.min?.getD 0
    (pruned, false, ⌊(window : ℚ) - (now - oldest)⌋ + 1)

/-- `RateLimitTracker.record_request`: append the current timestamp. -/
def record_request (requests : List ℚ) (now : ℚ) : List ℚ :=
  requests ++ [now]

/-- One client request through the tracker, following the discipline of
`_make_request`: call `check_rate_limit`; if allowed, record immediately
(at `now`); otherwise sleep the returned wait time and then record (at
`now + wait`).  Returns the new state and the instant of the record. -/
def acquire (window capacity : ℕ) (s : List ℚ) (now : ℚ) : List ℚ × ℚ :=
  let r := check_rate_limit window capacity s now
  if r.2.1 then (record_request r.1 now, now)
  else (record_request r.1 (now + (r.2.2 : ℚ)), now + (r.2.2 : ℚ))

/-- The tracker states reachable by a sequence of `acquire` steps at
nondecreasing instants, paired with the instant of the last record. -/
inductive RateReaches (window capacity : ℕ) : List ℚ → ℚ → Prop
  | start (t : ℚ) : RateReaches window capacity [] t
  | step (s : List ℚ) (t now : ℚ) (h : RateReaches window capacity s t)
      (hle : t ≤ now) :
      RateReaches window capacity (acquire window capacity s now).1
        (acquire window capacity s now).2

/-- The number of recorded timestamps within the trailing window at
instant `now`. -/
def in_window_count (window : ℕ) (now : ℚ) (s : List ℚ) : ℕ :=
  (s.filter fun t => decide (now - t < (window : ℚ))).length

/-! ## Order placement (`alpaca_trading_client.py`, `place_order`) -/

/-- Python truthiness of an optional string: `None` and `""` are falsy. -/
def truthyStr : Option String → Bool
  | none => false
  | some s => decide (s ≠ "")

/-- The JSON body assembled by `place_order` for `POST v2/orders`:
required fields plus whichever optional fields were passed truthy. -/
structure OrderPayload where
  symbol : String
  side : String
  orderType : String
  timeInForce : String
  qty : Option String := none
  notional : Option String := none
  limitPrice : Option String := none
  stopPrice : Option String := none
  trailPrice : Option String := none
  trailPercent : Option String := none
deriving DecidableEq, Repr

/-- `AlpacaTradingClient.place_order`: raises `ValueError` when neither
`qty` nor `notional` is truthy, otherwise assembles the order body (each
optional field included only when truthy) and submits it; `.ok payload`
models the request reaching `_make_request`. -/
def place_order (symbol : String) (qty notional : Option String)
    (side orderType timeInForce : String)
    (limitPrice stopPrice trailPrice trailPercent : Option String) :
    Except String OrderPayload :=
  if !truthyStr qty && !truthyStr notional then
    .error "Either qty or notional must be specified"
  else
    .ok { symbol := symbol
          side := side
          orderType := orderType
          timeInForce := timeInForce
          qty := if truthyStr qty then qty else none
          notional := if truthyStr notional then notional else none
          limitPrice := if truthyStr limitPrice then limitPrice else none
          stopPrice := if truthyStr stopPrice then stopPrice else none
          trailPrice := if truthyStr trailPrice then trailPrice else none
          trailPercent := if truthyStr trailPercent then trailPercent else none }

/-! ## Position-check path (`bug_fixes.py`, `fixed_get_position_check`) -/

/-- Substring test on character lists (Python's `needle in haystack`). -/
def has_infix_chars (needle : List Char) : List Char → Bool
  | [] => needle.isEmpty
  | c :: rest => needle.isPrefixOf (c :: rest) || has_infix_chars needle rest

/-- Python's `"needle" in haystack` for strings. -/
def str_has_sub (needle hay : String) : Bool :=
  has_infix_chars needle.toList hay.toList

/-- `fixed_get_position_check`: the result of `client.get_position(symbol)`
is passed in (`.ok` a position payload, `.error` the exception message).
The `try/except` catches every exception; the branch on the message only
selects which path returns — both return `None`.  The outer `Except` layer
records whether an exception escapes the function (it never does). -/
def fixed_get_position_check (res : Except String String) :
    Except String (Option String) :=
  match res with
  | .ok p => .ok (some p)
  | .error e =>
    if str_has_sub "404" e || str_has_sub "position does not exist" e then
      .ok none
    else
      .ok none

/-! ## Retry with exponential backoff (spec §4.2) -/

/-- The outcome of one HTTP attempt: success, an HTTP error status, or a
network-level connection/timeout error. -/
inductive HttpOutcome where
  | success
  | httpError (status : ℕ)
  | netError
deriving DecidableEq, Repr

/-- Modelled from the spec: retryable conditions are HTTP 5xx responses
and network-level errors; HTTP 4xx is not retryable. -/
def is_retryable_outcome : HttpOutcome → Bool
  | .success => false
  | .httpError s => decide (500 ≤ s)
  | .netError => true

/-- Modelled from the spec: backoff delay for a retry after `attempt`
failures is `min(2^attempt, 32)` seconds, scaled by `1 + jitter` and
floored at 0.1 s. -/
def backoff_delay (attempt : ℕ) (jitter : ℚ) : ℚ :=
  max (1 / 10) (min ((2 : ℚ) ^ attempt) 32 * (1 + jitter))

/-- Modelled from the spec: the retry loop of the enhanced
`_make_request` (the retry-capable client is exercised by
`test_alpaca_client.py` but its source is not in the snapshot).  At each
attempt, consult the next response; succeed on success, fail immediately
on a non-retryable error, and otherwise sleep the backoff delay and retry
while retries remain, raising the last error when they run out.  Returns
the result together with the list of sleep durations. -/
def make_request_go (responses : ℕ → HttpOutcome) (jitter : ℕ → ℚ) :
    ℕ → ℕ → Except HttpOutcome Unit × List ℚ
  | attempt, 0 =>
    if responses attempt = .success then (.ok (), [])
    else (.error (responses attempt), [])
  | attempt, r + 1 =>
    if responses attempt = .success then (.ok (), [])
    else if is_retryable_outcome (responses attempt) then
      let rest := make_request_go responses jitter (attempt + 1) r
      (rest.1, backoff_delay attempt (jitter attempt) :: rest.2)
    else (.error (responses attempt), [])

/-- Modelled from the spec: `_make_request` with a maximum retry count
(initial attempt plus up to `maxRetries` retries). -/
def make_request (maxRetries : ℕ) (responses : ℕ → HttpOutcome)
    (jitter : ℕ → ℚ) : Except HttpOutcome Unit × List ℚ :=
  make_request_go responses jitter 0 maxRetries

/-- Modelled from the spec: the default maximum number of retries. -/
def default_max_retries : ℕ := 3

/-! ## Data-freshness validation (spec §4.2) -/

/-- The `_data_freshness` metadata attached to validated market data. -/
structure FreshnessInfo where
  age : ℚ
  marketOpen : Bool
  threshold : ℚ
  isStale : Bool
deriving DecidableEq, Repr

/-- Modelled from the spec: staleness threshold while the market is open
(minutes). -/
def stale_threshold_market_hours : ℚ := 5

/-- Modelled from the spec: staleness threshold while the market is closed
(minutes). -/
def stale_threshold_off_hours : ℚ := 60

/-- Modelled from the spec: the freshness validation applied by the
enhanced market-data calls (`get_bars`/quote/trade; exercised by
`test_stale_data_detection.py`, source not in the snapshot).  The data
point's age is `now - ts`; the threshold depends on whether the market is
open; age strictly above the threshold is stale.  With validation enabled
a stale point raises the staleness error; otherwise the call succeeds and
the freshness metadata is attached either way. -/
def validate_data_freshness (validate marketOpen : Bool)
    (shortThreshold longThreshold now ts : ℚ) : Except String FreshnessInfo :=
  let threshold := if marketOpen then shortThreshold else longThreshold
  let age := now - ts
  let stale := decide (threshold < age)
  if validate && stale then .error "stale data"
  else .ok { age := age, marketOpen := marketOpen, threshold := threshold,
             isStale := stale }

/-! ## Position tracker (`enhanced_position_tracker.py`) -/

/-- A trade's direction. -/
inductive TradeType where
  | buy
  | sell
deriving DecidableEq, Repr

/-- One entry of the per-symbol trade log: integer-coded date, direction,
signed share count (negative for sells) and price per share. -/
structure TradeRecord where
  date : ℤ
  ttype : TradeType
  quantity : ℤ
  price : ℚ
deriving DecidableEq, Repr

/-- The trade-log fold of `get_current_position`: buys accumulate quantity
and cost (and fix the first-acquisition date); sells, only while the
running quantity is positive, add the (negative) quantity and remove the
sold shares' cost at the current average cost per share. -/
def fold_trades : List TradeRecord → ℚ → ℚ → Option ℤ → ℚ × ℚ × Option ℤ
  | [], tq, tc, fa => (tq, tc, fa)
  | tr :: rest, tq, tc, fa =>
    match tr.ttype with
    | .buy =>
      fold_trades rest (tq + tr.quantity) (tc + tr.quantity * tr.price)
        (if fa.isNone then some tr.date else fa)
    | .sell =>
      if 0 < tq then
        fold_trades rest (tq + tr.quantity) (tc - |(tr.quantity : ℚ)| * (tc / tq)) fa
      else fold_trades rest tq tc fa

/-- The position view returned by `get_current_position`. -/
structure CurrentPosition where
  quantity : ℚ
  costBasis : ℚ
  totalCost : ℚ
  tradesCount : ℕ
  actionsApplied : ℕ
  firstAcquisition : Option ℤ
deriving DecidableEq, Repr

/-- `PositionTracker.get_current_position`: fold the trade log; on a
nonpositive result return the zero-position sentinel; otherwise compute
the average cost basis and, when a first acquisition date exists, apply
the corporate actions through today and return the *adjusted* quantity
and cost basis (total cost recomputed from them). -/
def get_current_position (actions : List CorporateAction)
    (trades : List TradeRecord) (today : ℤ) : Except String CurrentPosition :=
  if trades.isEmpty then
    .ok { quantity := 0, costBasis := 0, totalCost := 0, tradesCount := 0,
          actionsApplied := 0, firstAcquisition := none }
  else
    match fold_trades trades 0 0 none with
    | (tq, tc, fa) =>
      if tq ≤ 0 then
        .ok { quantity := 0, costBasis := 0, totalCost := 0,
              tradesCount := trades.length, actionsApplied := 0,
              firstAcquisition := none }
      else
        match fa with
        | some f =>
          match apply_corporate_actions_to_position actions f tq (tc / tq)
              today with
          | .error e => .error e
          | .ok adj =>
            .ok { quantity := adj.adjustedQuantity
                  costBasis := adj.adjustedCostBasis
                  totalCost := adj.adjustedQuantity * adj.adjustedCostBasis
                  tradesCount := trades.length
                  actionsApplied := adj.actionsApplied
                  firstAcquisition := some f }
        | none =>
          .ok { quantity := tq, costBasis := tc / tq, totalCost := tc,
                tradesCount := trades.length, actionsApplied := 0,
                firstAcquisition := none }

/-- The scan of `get_position_pnl` for the first `'buy'` trade's date. -/
def first_buy_date : List TradeRecord → Option ℤ
  | [] => none
  | tr :: rest => if tr.ttype = .buy then some tr.date else first_buy_date rest

/-- The possible results of `get_position_pnl`. -/
inductive PnlResult where
  | noPosition
  | priceError
  | basic (currentValue totalPnl pnlPct : ℚ)
  | withActions (pnl : PnlBreakdown)
deriving DecidableEq, Repr

/-- `PositionTracker.get_position_pnl` with the current price supplied by
the caller: read the (already corporate-action-adjusted) current position,
return sentinels for the no-position and bad-price cases, fall back to a
basic P&L when no buy exists, and otherwise hand the *adjusted* quantity
and cost basis to `get_adjusted_pnl` together with the first acquisition
date. -/
def get_position_pnl (actions : List CorporateAction)
    (trades : List TradeRecord) (today : ℤ) (currentPrice : ℚ) :
    Except String PnlResult :=
  match get_current_position actions trades today with
  | .error e => .error e
  | .ok pos =>
    if pos.quantity = 0 then .ok .noPosition
    else if currentPrice ≤ 0 then .ok .priceError
    else
      match first_buy_date trades with
      | none =>
        let cv := pos.quantity * currentPrice
        let pnl := cv - pos.totalCost
        .ok (.basic cv pnl
          (if 0 < pos.totalCost then pnl / pos.totalCost * 100 else 0))
      | some f =>
        match get_adjusted_pnl actions f pos.quantity pos.costBasis
            currentPrice today with
        | .error e => .error e
        | .ok p => .ok (.withActions p)

/-- A split action with pre-parsed ratio components, as
`add_corporate_action` stores it. -/
def split_action (a b : ℤ) (exDate : ℤ) : CorporateAction :=
  { symbol := "SYM", actionType := .stockSplit, exDate := exDate,
    splitTo := some a, splitFrom := some b }

/-- A cash-dividend action. -/
def dividend_action (amt : ℚ) (exDate : ℤ) : CorporateAction :=
  { symbol := "SYM", actionType := .cashDividend, exDate := exDate,
    dividendAmount := some amt }

/-- A recorded buy. -/
def buy_trade (date : ℤ) (q : ℤ) (p : ℚ) : TradeRecord :=
  { date := date, ttype := .buy, quantity := q, price := p }

/-- C1.  For every quantity `Q > 0`, cost basis `C > 0` and split action
with parsed ratio `(to, from) = (a, b)` (both positive),
`calculate_stock_split_adjustment` yields adjusted quantity `Q * a / b`,
adjusted cost basis `C * b / a`, and the total cost is unchanged:
the adjusted total cost equals `Q * C` (exactly, in the rational model,
hence within any rounding tolerance). -/
theorem split_total_cost_invariant (act : CorporateAction) (Q C : ℚ) (a b : ℤ)
    (hQ : 0 < Q) (hC : 0 < C)
    (hto : act.splitTo = some a) (hfrom : act.splitFrom = some b)
    (ha : 0 < a) (hb : 0 < b) :
    (calculate_stock_split_adjustment act Q C).adjustedQuantity = Q * a / b ∧
    (calculate_stock_split_adjustment act Q C).adjustedCostBasis = C * b / a ∧
    (calculate_stock_split_adjustment act Q C).adjustedTotalCost =
      (calculate_stock_split_adjustment act Q C).originalTotalCost := by
  have ha' : (a : ℚ) ≠ 0 := by exact_mod_cast ha.ne'
  have hb' : (b : ℚ) ≠ 0 := by exact_mod_cast hb.ne'
  have hmul : get_split_multiplier act = (a : ℚ) / (b : ℚ) := by
    unfold get_split_multiplier truthyInt
    rw [hto, hfrom]
    simp [ha.ne', hb.ne']
  have hmul_ne : get_split_multiplier act ≠ 0 := by
    rw [hmul]
    exact div_ne_zero ha' hb'
  have hpf : get_price_adjustment_factor act = (b : ℚ) / (a : ℚ) := by
    unfold get_price_adjustment_factor
    rw [if_pos hmul_ne, hmul, one_div_div]
  refine ⟨?_, ?_, ?_⟩
  · show Q * get_split_multiplier act = Q * a / b
    rw [hmul, mul_div_assoc]
  · show C * get_price_adjustment_factor act = C * b / a
    rw [hpf, mul_div_assoc]
  · show Q * get_split_multiplier act * (C * get_price_adjustment_factor act) = Q * C
    rw [hmul, hpf]
    field_simp
    ring

/-- Witness for C1: the sample AAPL 4:1 split applied to 100 shares at
cost basis 400 gives 400 shares at cost basis 100, total cost preserved. -/
theorem split_total_cost_invariant_witness :
    (calculate_stock_split_adjustment aapl_split 100 400).adjustedQuantity =
      100 * ((4 : ℤ) : ℚ) / ((1 : ℤ) : ℚ) ∧
    (calculate_stock_split_adjustment aapl_split 100 400).adjustedCostBasis =
      400 * ((1 : ℤ) : ℚ) / ((4 : ℤ) : ℚ) ∧
    (calculate_stock_split_adjustment aapl_split 100 400).adjustedTotalCost =
      (calculate_stock_split_adjustment aapl_split 100 400).originalTotalCost :=
  split_total_cost_invariant aapl_split 100 400 4 1 (by norm_num) (by norm_num)
    rfl rfl (by norm_num) (by norm_num)

/-- C2.  End-to-end P&L example: 100 shares acquired at $400 on 2020-01-15;
with the 4:1 split (ex 2020-08-31) and the $0.24 dividend (ex 2023-11-10)
on file, `get_adjusted_pnl` as of 2024-01-01 at price $180 reports
adjusted quantity 400, adjusted cost basis $100, market value $72,000,
capital P&L $32,000, dividends $96, total P&L $32,096 and total return
80.24 %. -/
theorem pnl_end_to_end_example :
    (aapl_pnl_2024.map fun r => r.positionSummary.adjustedQuantity) = some 400 ∧
    (aapl_pnl_2024.map fun r => r.positionSummary.adjustedCostBasis) = some 100 ∧
    (aapl_pnl_2024.map fun r => r.currentMarketValue) = some 72000 ∧
    (aapl_pnl_2024.map fun r => r.capitalPnl) = some 32000 ∧
    (aapl_pnl_2024.map fun r => r.dividendsReceived) = some 96 ∧
    (aapl_pnl_2024.map fun r => r.totalPnl) = some 32096 ∧
    (aapl_pnl_2024.map fun r => r.totalReturnPct) = some (8024 / 100) := by
  refine ⟨?_, ?_, ?_, ?_, ?_, ?_, ?_⟩ <;>
    norm_num [aapl_pnl_2024, get_adjusted_pnl,
      apply_corporate_actions_to_position, apply_actions_fold,
      sort_by_ex_date, insert_by_ex_date, is_effective_on_date,
      is_split_type, is_cash_dividend_type,
      calculate_stock_split_adjustment, calculate_dividend_adjustment,
      get_split_multiplier, get_price_adjustment_factor, truthyInt,
      truthyRat, aapl_split, aapl_dividend, Except.toOption]

/-- Unfolding `acquire` when the window has room: the pruned list gets the
record appended at `now`. -/
theorem acquire_allowed (window capacity : ℕ) (s : List ℚ) (now : ℚ)
    (h : (s.filter fun x => decide (now - x < (window : ℚ))).length < capacity) :
    acquire window capacity s now =
      ((s.filter fun x => decide (now - x < (window : ℚ))) ++ [now], now) := by
  simp [acquire, check_rate_limit, record_request, h]

/-- Unfolding `acquire` when the window is full: the record lands at
`now + wait` with `wait = ⌊window - (now - oldest)⌋ + 1`. -/
theorem acquire_denied (window capacity : ℕ) (s : List ℚ) (now : ℚ)
    (h : ¬ (s.filter fun x => decide (now - x < (window : ℚ))).length < capacity) :
    acquire window capacity s now =
      ((s.filter fun x => decide (now - x < (window : ℚ))) ++
          [now + ((⌊(window : ℚ) - (now -
            ((s.filter fun x => decide (now - x < (window : ℚ))).min?.getD 0))⌋ + 1 : ℤ) : ℚ)],
        now + ((⌊(window : ℚ) - (now -
          ((s.filter fun x => decide (now - x < (window : ℚ))).min?.getD 0))⌋ + 1 : ℤ) : ℚ)) := by
  simp [acquire, check_rate_limit, record_request, h]

/-- C3 (amended).  Under the documented calling discipline — each
`record_request` immediately follows a `check_rate_limit` at the same
instant, recording at once when allowed and after sleeping the returned
wait time when not (`acquire`), with call instants nondecreasing — the
number of recorded timestamps within the trailing window never exceeds
the capacity (for any positive capacity), at the instant of every record
and at every later instant. -/
theorem rate_limit_window_invariant (window capacity : ℕ) (hcap : 0 < capacity)
    (s : List ℚ) (t : ℚ) (h : RateReaches window capacity s t) :
    ∀ q, t ≤ q → in_window_count window q s ≤ capacity := by
  induction h with
  | start t =>
    intro q _
    simp [in_window_count]
  | step s t now h hle ih =>
    intro q hq
    by_cases hallow :
        (s.filter fun x => decide (now - x < (window : ℚ))).length < capacity
    · rw [acquire_allowed window capacity s now hallow] at hq ⊢
      dsimp only at hq ⊢
      calc in_window_count window q
            ((s.filter fun x => decide (now - x < (window : ℚ))) ++ [now])
          ≤ ((s.filter fun x => decide (now - x < (window : ℚ))) ++ [now]).length :=
            List.length_filter_le _ _
        _ = (s.filter fun x => decide (now - x < (window : ℚ))).length + 1 := by
            simp
        _ ≤ capacity := hallow
    · rw [acquire_denied window capacity s now hallow] at hq ⊢
      dsimp only at hq ⊢
      have hprev : (s.filter fun x => decide (now - x < (window : ℚ))).length ≤
          capacity := ih now hle
      have hlen : (s.filter fun x => decide (now - x < (window : ℚ))).length =
          capacity := le_antisymm hprev (not_lt.mp hallow)
      obtain ⟨m, hm⟩ : ∃ m,
          (s.filter fun x => decide (now - x < (window : ℚ))).min? = some m := by
        cases hp : s.filter fun x => decide (now - x < (window : ℚ)) with
        | nil => rw [hp] at hlen; simp at hlen; omega
        | cons a as => exact ⟨as.foldl min a, rfl⟩
      have hmem : m ∈ s.filter fun x => decide (now - x < (window : ℚ)) :=
        List.min?_mem (fun a b => min_choice a b) hm
      rw [hm] at hq ⊢
      dsimp only [Option.getD] at hq ⊢
      have hwait : (window : ℚ) - (now - m) <
          ((⌊(window : ℚ) - (now - m)⌋ + 1 : ℤ) : ℚ) := by
        push_cast
        exact Int.lt_floor_add_one _
      have hqm : ¬ ((q - m < (window : ℚ))) := by
        have : (window : ℚ) + m < now + ((⌊(window : ℚ) - (now - m)⌋ + 1 : ℤ) : ℚ) := by
          linarith
        linarith
      have hdrop : ((s.filter fun x => decide (now - x < (window : ℚ))).filter
          fun x => decide (q - x < (window : ℚ))).length <
          (s.filter fun x => decide (now - x < (window : ℚ))).length :=
        List.length_filter_lt_length_iff_exists.mpr
          ⟨m, hmem, by simpa using hqm⟩
      rw [in_window_count, List.filter_append, List.length_append]
      have hlast : (([now + ((⌊(window : ℚ) - (now - m)⌋ + 1 : ℤ) : ℚ)]).filter
          fun x => decide (q - x < (window : ℚ))).length ≤ 1 :=
        List.length_filter_le _ _
      omega

/-- Witness for the amended C3 at a concrete trace: one `acquire` on an
empty tracker with window 60 s and capacity 1. -/
theorem rate_limit_window_invariant_witness :
    in_window_count 60 ((acquire 60 1 [] 0).2) ((acquire 60 1 [] 0).1) ≤ 1 :=
  rate_limit_window_invariant 60 1 (by norm_num) _ _
    (RateReaches.step [] 0 0 (RateReaches.start 0) le_rfl) _ le_rfl

/-- Counterexample to C3 as stated: the claim quantifies over *any*
sequence of `check_rate_limit`/`record_request` calls, but
`record_request` appends unconditionally, so two bare records at the same
instant put 2 timestamps inside a window of capacity 1. -/
theorem rate_window_counterexample :
    in_window_count 60 0 (record_request (record_request [] 0) 0) = 2 ∧
    ¬ in_window_count 60 0 (record_request (record_request [] 0) 0) ≤ 1 := by
  constructor <;> norm_num [in_window_count, record_request]

/-- C4 (amended).  `check_rate_limit` first prunes to the timestamps with
`now - t < window` (so a timestamp aged exactly `window` is evicted too);
it returns `(true, 0)` when the remaining count is strictly below
capacity, and otherwise `(false, ⌊window - (now - oldest)⌋ + 1)` — the
floor (Python `int()` truncation of a positive value) of the residual
window of the oldest remaining timestamp, plus one. -/
theorem check_rate_limit_spec (window capacity : ℕ) (requests : List ℚ)
    (now : ℚ) (hcap : 0 < capacity) :
    (check_rate_limit window capacity requests now).1 =
      (requests.filter fun x => decide (now - x < (window : ℚ))) ∧
    ((requests.filter fun x => decide (now - x < (window : ℚ))).length <
        capacity →
      (check_rate_limit window capacity requests now).2 = (true, 0)) ∧
    (capacity ≤
        (requests.filter fun x => decide (now - x < (window : ℚ))).length →
      ∃ m, (requests.filter fun x => decide (now - x < (window : ℚ))).min? =
          some m ∧
        (check_rate_limit window capacity requests now).2 =
          (false, ⌊(window : ℚ) - (now - m)⌋ + 1)) := by
  refine ⟨?_, ?_, ?_⟩
  · by_cases hallow :
        (requests.filter fun x => decide (now - x < (window : ℚ))).length <
          capacity <;>
      simp [check_rate_limit, hallow]
  · intro hallow
    simp [check_rate_limit, hallow]
  · intro hfull
    have hallow : ¬ (requests.filter fun x =>
        decide (now - x < (window : ℚ))).length < capacity := not_lt.mpr hfull
    obtain ⟨m, hm⟩ : ∃ m,
        (requests.filter fun x => decide (now - x < (window : ℚ))).min? =
          some m := by
      cases hp : requests.filter fun x => decide (now - x < (window : ℚ)) with
      | nil => rw [hp] at hfull; simp at hfull; omega
      | cons a as => exact ⟨as.foldl min a, rfl⟩
    refine ⟨m, hm, ?_⟩
    simp [check_rate_limit, hallow, hm]

/-- Witness for the amended C4: window 60 s, capacity 1, one request
recorded at time 0, checked at time 0.5. -/
theorem check_rate_limit_spec_witness :
    (check_rate_limit 60 1 [0] (1 / 2)).1 =
      (([0] : List ℚ).filter fun x => decide ((1 : ℚ) / 2 - x < (60 : ℚ))) ∧
    ((([0] : List ℚ).filter fun x =>
        decide ((1 : ℚ) / 2 - x < (60 : ℚ))).length < 1 →
      (check_rate_limit 60 1 [0] (1 / 2)).2 = (true, 0)) ∧
    (1 ≤ (([0] : List ℚ).filter fun x =>
        decide ((1 : ℚ) / 2 - x < (60 : ℚ))).length →
      ∃ m, (([0] : List ℚ).filter fun x =>
          decide ((1 : ℚ) / 2 - x < (60 : ℚ))).min? = some m ∧
        (check_rate_limit 60 1 [0] (1 / 2)).2 =
          (false, ⌊(60 : ℚ) - (1 / 2 - m)⌋ + 1)) :=
  check_rate_limit_spec 60 1 [0] (1 / 2) (by norm_num)

/-- Counterexample to C4 as stated.  At window 60, capacity 1, recorded
timestamp 0 and `now = 0.5` the code returns wait 60, while the claim's
`ceil(window - (now - oldest)) + 1` is 61; and a timestamp aged exactly
`window` (which the claim's "older than now − window" pruning would keep,
forcing a denial at capacity 1) is actually evicted, so the check comes
back allowed. -/
theorem check_rate_limit_counterexample :
    (check_rate_limit 60 1 [0] (1 / 2)).2.2 = 60 ∧
    (⌈(60 : ℚ) - (1 / 2 - 0)⌉ + 1 : ℤ) = 61 ∧
    ¬ ((60 : ℤ) = 61) ∧
    (check_rate_limit 60 1 [-60] 0).2.1 = true ∧
    ¬ ((-60 : ℚ) < 0 - 60) := by
  have hceil : (⌈(119 : ℚ) / 2⌉ : ℤ) = 60 := by
    rw [Int.ceil_eq_iff] <;> norm_num
  refine ⟨?_, ?_, ?_, ?_, ?_⟩ <;>
    norm_num [check_rate_limit, hceil]

/-- C6 (amended).  `place_order` raises the validation `ValueError` before
any HTTP request exactly when *neither* `qty` nor `notional` is truthy; a
call with at least one of them set — including a call with *both* set —
proceeds to submission (the source never checks the both-set case). -/
theorem place_order_validation (symbol side orderType timeInForce : String)
    (qty notional limitPrice stopPrice trailPrice trailPercent :
      Option String) :
    (truthyStr qty = false → truthyStr notional = false →
      place_order symbol qty notional side orderType timeInForce
        limitPrice stopPrice trailPrice trailPercent =
        .error "Either qty or notional must be specified") ∧
    (truthyStr qty = true ∨ truthyStr notional = true →
      (place_order symbol qty notional side orderType timeInForce
        limitPrice stopPrice trailPrice trailPercent).isOk = true) := by
  constructor
  · intro h1 h2
    simp [place_order, h1, h2]
  · intro h
    rcases h with h | h <;> simp [place_order, h, Except.isOk, Except.toBool]

/-- Witness for the amended C6: a qty-only market order proceeds, and a
call with neither field fails validation. -/
theorem place_order_validation_witness :
    (truthyStr (some "10") = true ∨ truthyStr none = true →
      (place_order "AAPL" (some "10") none "buy" "market" "day"
        none none none none).isOk = true) ∧
    (truthyStr (none : Option String) = false → truthyStr none = false →
      place_order "AAPL" none none "buy" "market" "day"
        none none none none =
        .error "Either qty or notional must be specified") :=
  ⟨(place_order_validation "AAPL" "buy" "market" "day" (some "10") none
      none none none none).2,
    (place_order_validation "AAPL" "buy" "market" "day" none none
      none none none none).1⟩

/-- Counterexample to C6 as stated: an order with *both* `qty` and
`notional` set sails through validation and is submitted with both fields
in the body, instead of failing before the HTTP call. -/
theorem place_order_counterexample :
    place_order "AAPL" (some "10") (some "1000") "buy" "market" "day"
        none none none none =
      .ok { symbol := "AAPL", side := "buy", orderType := "market",
            timeInForce := "day", qty := some "10",
            notional := some "1000" } := by
  simp [place_order, truthyStr]

/-- The well-formed sample ratio parses to its components. -/
theorem ratio_four_one_parses :
    parse_split_ratio ['4', ':', '1'] = (some 4, some 1) := rfl

/-- C7 (the bug the spec flags).  A malformed split ratio — a missing
separator (`"4-1"`) or non-numeric parts (`"abc:1"`) — leaves both ratio
components unset, so `get_split_multiplier` silently returns `1.0` and
the split adjustment is a no-op on quantity and cost basis; no validation
failure is surfaced anywhere. -/
theorem malformed_split_ratio_is_silent_noop :
    parse_split_ratio ['4', '-', '1'] = (none, none) ∧
    parse_split_ratio ['a', 'b', 'c', ':', '1'] = (none, none) ∧
    get_split_multiplier
      (mk_split_action "AAPL" .stockSplit 20200831 ['4', '-', '1']) = 1 ∧
    (calculate_stock_split_adjustment
      (mk_split_action "AAPL" .stockSplit 20200831 ['4', '-', '1'])
      100 400).adjustedQuantity = 100 ∧
    (calculate_stock_split_adjustment
      (mk_split_action "AAPL" .stockSplit 20200831 ['4', '-', '1'])
      100 400).adjustedCostBasis = 400 := by
  have hm : get_split_multiplier
      (mk_split_action "AAPL" .stockSplit 20200831 ['4', '-', '1']) = 1 := rfl
  have hpf : get_price_adjustment_factor
      (mk_split_action "AAPL" .stockSplit 20200831 ['4', '-', '1']) = 1 := by
    rw [get_price_adjustment_factor, hm]
    norm_num
  refine ⟨rfl, rfl, hm, ?_, ?_⟩
  · show (100 : ℚ) * get_split_multiplier
        (mk_split_action "AAPL" .stockSplit 20200831 ['4', '-', '1']) = 100
    rw [hm]
    norm_num
  · show (400 : ℚ) * get_price_adjustment_factor
        (mk_split_action "AAPL" .stockSplit 20200831 ['4', '-', '1']) = 400
    rw [hpf]
    norm_num

/-- C8 (the bug).  `fixed_get_position_check` returns the no-position
sentinel for the 404 "position does not exist" case — but it also returns
the sentinel, rather than propagating, for *every* other failure: a 404
for a bad symbol and a plain connection error both come back as `None`
with no exception escaping. -/
theorem position_check_swallows_errors :
    fixed_get_position_check (.ok "position-json") = .ok (some "position-json") ∧
    fixed_get_position_check
      (.error "Alpaca API error (404): position does not exist") = .ok none ∧
    fixed_get_position_check
      (.error "Alpaca API error (404): symbol not found: INVALID") =
      .ok none ∧
    fixed_get_position_check (.error "Connection refused") = .ok none := by
  refine ⟨rfl, rfl, rfl, rfl⟩

/-- With zero jitter the backoff delay is exactly the capped power of
two (which always clears the 0.1 s floor). -/
theorem backoff_delay_zero_jitter (i : ℕ) :
    backoff_delay i 0 = min ((2 : ℚ) ^ i) 32 := by
  have h1 : (1 : ℚ) ≤ min ((2 : ℚ) ^ i) 32 :=
    le_min (one_le_pow₀ (by norm_num)) (by norm_num)
  rw [backoff_delay, add_zero, mul_one]
  exact max_eq_right (le_trans (by norm_num) h1)

/-- The retry loop after `n` consecutive 5xx failures followed by a
success, with retries to spare: succeeds and sleeps once per failure. -/
theorem make_request_go_success (responses : ℕ → HttpOutcome) (n : ℕ) :
    ∀ k r, n ≤ r →
    (∀ i, i < n → ∃ s, responses (k + i) = .httpError s ∧ 500 ≤ s) →
    responses (k + n) = .success →
    make_request_go responses (fun _ => 0) k r =
      (.ok (), (List.range n).map fun i => backoff_delay (k + i) 0) := by
  induction n with
  | zero =>
    intro k r _ _ hs
    rw [Nat.add_zero] at hs
    cases r with
    | zero => simp [make_request_go, hs]
    | succ r' => simp [make_request_go, hs]
  | succ n ih =>
    intro k r hr hfail hs
    obtain ⟨r', rfl⟩ : ∃ r', r = r' + 1 := ⟨r - 1, by omega⟩
    obtain ⟨sv, hsk, hs500⟩ := hfail 0 (by omega)
    rw [Nat.add_zero] at hsk
    have hrec := ih (k + 1) r' (by omega)
      (fun i hi => by
        have h := hfail (i + 1) (by omega)
        rwa [show k + (i + 1) = k + 1 + i by omega] at h)
      (by rwa [show k + 1 + n = k + (n + 1) by omega])
    have harith : ∀ i : ℕ, backoff_delay (k + 1 + i) 0 =
        backoff_delay (k + (i + 1)) 0 := fun i => by
      rw [show k + 1 + i = k + (i + 1) by omega]
    simp [make_request_go, hsk, is_retryable_outcome, hs500, hrec,
      List.range_succ_eq_map, List.map_map, Function.comp, harith]

/-- The retry loop when every attempt fails with a 5xx: exhausts the
retries, sleeps once per retry, and raises the last error. -/
theorem make_request_go_all_fail (responses : ℕ → HttpOutcome) (r : ℕ) :
    ∀ k, (∀ i, i ≤ r → ∃ s, responses (k + i) = .httpError s ∧ 500 ≤ s) →
    make_request_go responses (fun _ => 0) k r =
      (.error (responses (k + r)),
        (List.range r).map fun i => backoff_delay (k + i) 0) := by
  induction r with
  | zero =>
    intro k h
    obtain ⟨s, hs, h5⟩ := h 0 le_rfl
    rw [Nat.add_zero] at hs
    simp [make_request_go, hs]
  | succ r' ih =>
    intro k hfail
    obtain ⟨sv, hsk, hs500⟩ := hfail 0 (by omega)
    rw [Nat.add_zero] at hsk
    have hrec := ih (k + 1)
      (fun i hi => by
        have h := hfail (i + 1) (by omega)
        rwa [show k + (i + 1) = k + 1 + i by omega] at h)
    have harith : ∀ i : ℕ, backoff_delay (k + 1 + i) 0 =
        backoff_delay (k + (i + 1)) 0 := fun i => by
      rw [show k + 1 + i = k + (i + 1) by omega]
    have hlast : k + 1 + r' = k + (r' + 1) := by omega
    simp [make_request_go, hsk, is_retryable_outcome, hs500, hrec, hlast,
      List.range_succ_eq_map, List.map_map, Function.comp, harith]

/-- C5.  Retry/backoff contract of the client's request path: (1) after
`N` consecutive HTTP 5xx responses followed by a success, with
`N ≤ max_retries`, the request succeeds and the sleeps (ignoring jitter)
are `min(2^0, 32), ..., min(2^(N-1), 32)` seconds; (2) when every attempt
returns a 5xx the client sleeps that same schedule for `max_retries`
retries and then raises the last error; (3) an HTTP 4xx fails immediately
with no retry and no sleep. -/
theorem retry_backoff_spec (maxRetries : ℕ) (responses : ℕ → HttpOutcome) :
    (∀ N, N ≤ maxRetries →
      (∀ i, i < N → ∃ s, responses i = .httpError s ∧ 500 ≤ s) →
      responses N = .success →
      make_request maxRetries responses (fun _ => 0) =
        (.ok (), (List.range N).map fun i => min ((2 : ℚ) ^ i) 32)) ∧
    ((∀ i, i ≤ maxRetries → ∃ s, responses i = .httpError s ∧ 500 ≤ s) →
      make_request maxRetries responses (fun _ => 0) =
        (.error (responses maxRetries),
          (List.range maxRetries).map fun i => min ((2 : ℚ) ^ i) 32)) ∧
    (∀ s, responses 0 = .httpError s → 400 ≤ s → s < 500 →
      make_request maxRetries responses (fun _ => 0) =
        (.error (.httpError s), [])) := by
  refine ⟨?_, ?_, ?_⟩
  · intro N hN hfail hs
    rw [make_request, make_request_go_success responses N 0 maxRetries hN
      (fun i hi => by simpa using hfail i hi) (by simpa using hs)]
    simp [backoff_delay_zero_jitter]
  · intro hfail
    rw [make_request, make_request_go_all_fail responses maxRetries 0
      (fun i hi => by simpa using hfail i hi)]
    simp [backoff_delay_zero_jitter]
  · intro s hs h4 h5
    have hnr : is_retryable_outcome (responses 0) = false := by
      simp [hs, is_retryable_outcome]
      omega
    have hns : responses 0 ≠ .success := by simp [hs]
    rw [hs] at hnr
    cases maxRetries with
    | zero => simp [make_request, make_request_go, hns, hnr, hs]
    | succ r => simp [make_request, make_request_go, hns, hnr, hs]

/-- Witness for C5: with the default 3 retries, two 500s followed by a
success yield success with sleeps `[1, 2]`; and a 404 on the first
attempt fails at once with no sleeps. -/
theorem retry_backoff_spec_witness :
    make_request default_max_retries
        (fun i => if i < 2 then .httpError 500 else .success) (fun _ => 0) =
      (.ok (), (List.range 2).map fun i => min ((2 : ℚ) ^ i) 32) ∧
    make_request default_max_retries (fun _ => .httpError 404)
        (fun _ => 0) =
      (.error (.httpError 404), []) :=
  ⟨(retry_backoff_spec default_max_retries _).1 2 (by decide)
      (fun i hi => ⟨500, by simp [hi], by norm_num⟩) (by simp),
    (retry_backoff_spec default_max_retries _).2.2 404 rfl
      (by norm_num) (by norm_num)⟩

/-- C9.  Freshness policy for market-data calls: with validation enabled
the call fails with the staleness error exactly when the data point's age
strictly exceeds the applicable threshold (the short threshold when the
market is open, the long one when closed); a data point aged exactly the
threshold is not stale; and with validation disabled the call succeeds
with the freshness metadata still attached. -/
theorem staleness_boundary (validate marketOpen : Bool)
    (shortT longT now ts : ℚ) :
    (validate = true →
      ((validate_data_freshness validate marketOpen shortT longT now ts).isOk
          = false ↔ (if marketOpen then shortT else longT) < now - ts)) ∧
    (now - ts = (if marketOpen then shortT else longT) →
      validate_data_freshness validate marketOpen shortT longT now ts =
        .ok { age := now - ts, marketOpen := marketOpen,
              threshold := if marketOpen then shortT else longT,
              isStale := false }) ∧
    (validate = false →
      validate_data_freshness validate marketOpen shortT longT now ts =
        .ok { age := now - ts, marketOpen := marketOpen,
              threshold := if marketOpen then shortT else longT,
              isStale :=
                decide ((if marketOpen then shortT else longT) < now - ts) }) := by
  refine ⟨?_, ?_, ?_⟩
  · intro hv
    subst hv
    by_cases hst : (if marketOpen then shortT else longT) < now - ts <;>
      simp [validate_data_freshness, hst, Except.isOk, Except.toBool]
  · intro heq
    have hst : ¬ ((if marketOpen then shortT else longT) < now - ts) := by
      rw [heq]
      exact lt_irrefl _
    simp [validate_data_freshness, hst]
  · intro hv
    subst hv
    simp [validate_data_freshness]

/-- Witness for C9: market open, thresholds 5/60 minutes; a six-minute-old
point is rejected by validation, and the same point passes with validation
off, stale flag attached. -/
theorem staleness_boundary_witness :
    ((validate_data_freshness true true stale_threshold_market_hours
        stale_threshold_off_hours 10 4).isOk = false ↔
      (if true then stale_threshold_market_hours
        else stale_threshold_off_hours) < 10 - 4) ∧
    validate_data_freshness false true stale_threshold_market_hours
        stale_threshold_off_hours 10 4 =
      .ok { age := 10 - 4, marketOpen := true,
            threshold := if true then stale_threshold_market_hours
              else stale_threshold_off_hours,
            isStale := decide ((if true then stale_threshold_market_hours
              else stale_threshold_off_hours) < 10 - 4) } :=
  ⟨(staleness_boundary true true stale_threshold_market_hours
      stale_threshold_off_hours 10 4).1 rfl,
    (staleness_boundary false true stale_threshold_market_hours
      stale_threshold_off_hours 10 4).2.2 rfl⟩

/-- Evaluating the adjustment pipeline on a ledger holding one split
`(a:b)` (ex `sEx`) followed by one cash dividend (ex `dEx`), both in range
for the position: the quantity scales by `a/b`, the cost basis by `b/a`,
and the dividend accrues on the post-split share count. -/
theorem apply_two_actions (a b : ℤ) (divAmt tq cb : ℚ)
    (acq sEx dEx asOf : ℤ)
    (ha : a ≠ 0) (hb : b ≠ 0) (hdiv : divAmt ≠ 0)
    (h1 : acq ≤ sEx) (h2 : sEx ≤ dEx) (h3 : dEx ≤ asOf) (h4 : acq ≤ dEx) :
    apply_corporate_actions_to_position
        [split_action a b sEx, dividend_action divAmt dEx] acq tq cb asOf =
      .ok { originalQuantity := tq
            originalCostBasis := cb
            adjustedQuantity := tq * ((a : ℚ) / b)
            adjustedCostBasis := cb * ((b : ℚ) / a)
            totalDividendsReceived := tq * ((a : ℚ) / b) * divAmt
            adjustments :=
              [calculate_stock_split_adjustment (split_action a b sEx) tq cb,
                { originalQuantity := tq * ((a : ℚ) / b)
                  originalCostBasis := 0
                  originalTotalCost := 0
                  adjustedQuantity := tq * ((a : ℚ) / b)
                  adjustedCostBasis := 0
                  adjustedTotalCost := 0
                  cashAdjustment := tq * ((a : ℚ) / b) * divAmt }]
            actionsApplied := 2 } := by
  have hm : get_split_multiplier (split_action a b sEx) = (a : ℚ) / b := by
    simp [get_split_multiplier, split_action, truthyInt, ha, hb]
  have hm0 : ((a : ℚ) / b) ≠ 0 :=
    div_ne_zero (Int.cast_ne_zero.mpr ha) (Int.cast_ne_zero.mpr hb)
  have hpf : get_price_adjustment_factor (split_action a b sEx) =
      (b : ℚ) / a := by
    simp [get_price_adjustment_factor, hm, hm0, one_div_div]
  have hsEx : sEx ≤ asOf := le_trans h2 h3
  have e1 : (split_action a b sEx).exDate = sEx := rfl
  have e2 : (split_action a b sEx).actionType = .stockSplit := rfl
  have e3 : (dividend_action divAmt dEx).exDate = dEx := rfl
  have e4 : (dividend_action divAmt dEx).actionType = .cashDividend := rfl
  have e5 : (dividend_action divAmt dEx).dividendAmount = some divAmt := rfl
  simp [apply_corporate_actions_to_position, List.filter,
    is_effective_on_date, e1, e2, e3, e4, e5, h1, h2, h3, h4, hsEx,
    sort_by_ex_date, insert_by_ex_date, apply_actions_fold, is_split_type,
    is_cash_dividend_type, calculate_dividend_adjustment, truthyRat, hdiv,
    calculate_stock_split_adjustment, hm, hpf]

/-- C10.  `get_position_pnl` feeds the *already adjusted* quantity and
cost basis from `get_current_position`, together with the first
acquisition date, back into `get_adjusted_pnl`, so the ledger's actions
are applied twice: for a trade log with one buy of `q` shares at `p` and a
ledger with one `(a:b)` split (multiplier `m = a/b`) and one later cash
dividend, both effective since the acquisition, the current position
already reports `q·m` shares, and the P&L is then computed on `q·m²`
shares — the market value is `q·m²·price` and the dividend accrues on the
doubly adjusted share count `q·m²`. -/
theorem double_adjustment_in_position_pnl
    (q a b : ℤ) (p price divAmt : ℚ) (buyDate sEx dEx today : ℤ)
    (hq : 0 < q) (hp : 0 < p) (hprice : 0 < price) (hdiv : 0 < divAmt)
    (ha : 0 < a) (hb : 0 < b)
    (h1 : buyDate ≤ sEx) (h2 : sEx ≤ dEx) (h3 : dEx ≤ today) :
    (get_current_position [split_action a b sEx, dividend_action divAmt dEx]
        [buy_trade buyDate q p] today).toOption.map
        (fun pos => (pos.quantity, pos.costBasis)) =
      some ((q : ℚ) * ((a : ℚ) / b), p * ((b : ℚ) / a)) ∧
    ∃ pnl,
      get_position_pnl [split_action a b sEx, dividend_action divAmt dEx]
          [buy_trade buyDate q p] today price = .ok (.withActions pnl) ∧
      pnl.currentMarketValue = (q : ℚ) * ((a : ℚ) / b) ^ 2 * price ∧
      pnl.dividendsReceived = (q : ℚ) * ((a : ℚ) / b) ^ 2 * divAmt := by
  have haq : (a : ℚ) ≠ 0 := Int.cast_ne_zero.mpr ha.ne'
  have hbq : (b : ℚ) ≠ 0 := Int.cast_ne_zero.mpr hb.ne'
  have hqq : (q : ℚ) ≠ 0 := Int.cast_ne_zero.mpr hq.ne'
  have hdivq : divAmt ≠ 0 := hdiv.ne'
  have hm0 : ((a : ℚ) / b) ≠ 0 := div_ne_zero haq hbq
  have hqpos : (0 : ℚ) < (q : ℚ) := by exact_mod_cast hq
  have hfold : fold_trades [buy_trade buyDate q p] 0 0 none =
      ((q : ℚ), (q : ℚ) * p, some buyDate) := by
    simp [fold_trades, buy_trade]
  have hcb : ((q : ℚ) * p) / (q : ℚ) = p := by
    field_simp
  have happly1 := apply_two_actions a b divAmt (q : ℚ)
    (((q : ℚ) * p) / (q : ℚ)) buyDate sEx dEx today ha.ne' hb.ne' hdivq
    h1 h2 h3 (le_trans h1 h2)
  rw [hcb] at happly1
  have hgc : get_current_position
      [split_action a b sEx, dividend_action divAmt dEx]
      [buy_trade buyDate q p] today =
      .ok { quantity := (q : ℚ) * ((a : ℚ) / b)
            costBasis := p * ((b : ℚ) / a)
            totalCost := (q : ℚ) * ((a : ℚ) / b) * (p * ((b : ℚ) / a))
            tradesCount := 1
            actionsApplied := 2
            firstAcquisition := some buyDate } := by
    rw [get_current_position, hfold]
    simp [not_le.mpr hqpos, hcb, happly1]
  constructor
  · rw [hgc]
    simp [Except.toOption]
  · have happly2 := apply_two_actions a b divAmt ((q : ℚ) * ((a : ℚ) / b))
      (p * ((b : ℚ) / a)) buyDate sEx dEx today ha.ne' hb.ne' hdivq
      h1 h2 h3 (le_trans h1 h2)
    have hqm0 : (q : ℚ) * ((a : ℚ) / b) ≠ 0 := mul_ne_zero hqq hm0
    rw [get_position_pnl, hgc]
    simp [hqm0, not_le.mpr hprice, first_buy_date, buy_trade,
      get_adjusted_pnl, happly2]
    constructor <;> exact Or.inl (by ring)

/-- Witness for C10: 10 shares bought at $100; a 4:1 split and a $0.25
dividend on file.  The current position already reports 40 shares, and
the P&L pipeline then values 160 shares. -/
theorem double_adjustment_in_position_pnl_witness :
    (get_current_position
        [split_action 4 1 20200831, dividend_action (1 / 4) 20231110]
        [buy_trade 20200115 10 100] 20240101).toOption.map
        (fun pos => (pos.quantity, pos.costBasis)) =
      some (((10 : ℤ) : ℚ) * (((4 : ℤ) : ℚ) / ((1 : ℤ) : ℚ)),
        100 * (((1 : ℤ) : ℚ) / ((4 : ℤ) : ℚ))) ∧
    ∃ pnl,
      get_position_pnl
          [split_action 4 1 20200831, dividend_action (1 / 4) 20231110]
          [buy_trade 20200115 10 100] 20240101 50 = .ok (.withActions pnl) ∧
      pnl.currentMarketValue =
        ((10 : ℤ) : ℚ) * (((4 : ℤ) : ℚ) / ((1 : ℤ) : ℚ)) ^ 2 * 50 ∧
      pnl.dividendsReceived =
        ((10 : ℤ) : ℚ) * (((4 : ℤ) : ℚ) / ((1 : ℤ) : ℚ)) ^ 2 * (1 / 4) :=
  double_adjustment_in_position_pnl 10 4 1 100 50 (1 / 4)
    20200115 20200831 20231110 20240101
    (by norm_num) (by norm_num) (by norm_num) (by norm_num)
    (by norm_num) (by norm_num) (by norm_num) (by norm_num) (by norm_num)
